import Mathlib

/-!
Verification of the message-format converter of the letta-vercel-ai-sdk-provider
repository: the Inbound Aggregator (`convertToAiSdkMessage` together with
`transformMessageContent`) and the Outbound Flattener (`convertToLettaMessage`
together with `transformContentParts`), shallowly embedded in Lean.

JavaScript runtime values that the source accesses dynamically (content
fragments, tool arguments, tool return values) are modelled by the `JsVal`
type.  Thrown `Error`s are modelled by the `Except ConvError` monad, one
constructor per throw site.  `Date` values are modelled by the ISO string
`toISOString` produces for them.
-/

/-- Untyped JavaScript value, as far as the converter inspects one. -/
inductive JsVal where
  | undef
  | null
  | bool (b : Bool)
  | num (n : Int)
  | str (s : String)
  | arr (elems : List JsVal)
  | obj (fields : List (String × JsVal))

/-- Property access `v.k` on a value known not to be null/undefined:
objects yield the first binding of the field (JS object keys are unique),
every non-object yields `undefined`. -/
def JsVal.get : JsVal → String → JsVal
  | .obj fields, k => getField fields k
  | _, _ => .undef
where
  getField : List (String × JsVal) → String → JsVal
    | [], _ => .undef
    | f :: rest, k => if f.1 = k then f.2 else getField rest k

/-- Optional-chain access `v?.k`: `undefined` when the receiver is
nullish, plain property access otherwise. -/
def JsVal.optGetField (v : JsVal) (k : String) : JsVal :=
  match v with
  | .undef => .undef
  | .null => .undef
  | _ => v.get k

/-- Nullish coalescing `a ?? b`. -/
def jsCoalesce (a b : JsVal) : JsVal :=
  match a with
  | .undef => b
  | .null => b
  | _ => a

/-- JavaScript truthiness (`NaN` is outside the model). -/
def JsVal.truthy : JsVal → Bool
  | .undef => false
  | .null => false
  | .bool b => b
  | .num n => n != 0
  | .str s => s ≠ ""
  | .arr _ => true
  | .obj _ => true

/-- `typeof v === "string"`. -/
def JsVal.isString : JsVal → Bool
  | .str _ => true
  | _ => false

/-- One escaped character of a JSON string literal. -/
def jsonEscapeChar (c : Char) : String :=
  if c = '\x22' then "\\\x22"
  else if c = '\\' then "\\\\"
  else if c = '\n' then "\\n"
  else if c = '\r' then "\\r"
  else if c = '\t' then "\\t"
  else if c = '\x08' then "\\b"
  else if c = '\x0C' then "\\f"
  else if c.toNat < 32 then
    "\\u00" ++ String.mk [Nat.digitChar (c.toNat / 16), Nat.digitChar (c.toNat % 16)]
  else String.mk [c]

/-- JSON string literal for `s`, double quotes included. -/
def jsonQuote (s : String) : String :=
  "\x22" ++ String.join (s.data.map jsonEscapeChar) ++ "\x22"

mutual

/-- `JSON.stringify(v)`: `none` models the `undefined` result for
non-serializable input, `some s` the produced JSON text. -/
def jsonStringify : JsVal → Option String
  | .undef => none
  | .null => some "null"
  | .bool b => some (if b then "true" else "false")
  | .num n => some (toString n)
  | .str s => some (jsonQuote s)
  | .arr elems => some ("[" ++ String.intercalate "," (jsonStringifyElems elems) ++ "]")
  | .obj fields => some ("\x7b" ++ String.intercalate "," (jsonStringifyFields fields) ++ "\x7d")

/-- Array elements of `JSON.stringify`; non-serializable entries print as `null`. -/
def jsonStringifyElems : List JsVal → List String
  | [] => []
  | v :: rest => (jsonStringify v).getD "null" :: jsonStringifyElems rest

/-- Object members of `JSON.stringify`; non-serializable values are omitted. -/
def jsonStringifyFields : List (String × JsVal) → List String
  | [] => []
  | (k, v) :: rest =>
    match jsonStringify v with
    | none => jsonStringifyFields rest
    | some sv => (jsonQuote k ++ ":" ++ sv) :: jsonStringifyFields rest

end

mutual

/-- JavaScript string coercion `String(v)`, used in the thrown error message. -/
def jsDisplay : JsVal → String
  | .undef => "undefined"
  | .null => "null"
  | .bool b => if b then "true" else "false"
  | .num n => toString n
  | .str s => s
  | .arr elems => String.intercalate "," (jsDisplayElems elems)
  | .obj _ => "[object Object]"

/-- Element coercions for `String(array)`. -/
def jsDisplayElems : List JsVal → List String
  | [] => []
  | v :: rest => jsDisplay v :: jsDisplayElems rest

end

/-- The errors the converter throws, one constructor per throw site. -/
inductive ConvError where
  /-- `Content type ... not supported` (both transform variants). -/
  | unsupportedContentType (tag : String)
  /-- `Assistant role is not supported for user input`. -/
  | assistantRoleNotSupported
  /-- `Tool role is not supported`. -/
  | toolRoleNotSupported
  /-- `Message role is not supported`. -/
  | roleNotSupported
deriving DecidableEq

/-- `system_message` / `user_message` / `assistant_message` content:
a plain string or a structured fragment array (`string | any[]`). -/
inductive MessageContent where
  | str (s : String)
  | arr (vals : List JsVal)

/-- The nested `toolCall` object of a `tool_call_message`. -/
structure ToolCallInfo where
  name : String
  toolCallId : String
  arguments : JsVal

/-- `LettaMessageUnion`: the six event kinds, with the fields the
converter reads.  `date` is the event timestamp as its ISO string. -/
inductive LettaMessage where
  | systemMsg (id : String) (date : String) (content : String)
  | userMsg (id : String) (date : String) (content : MessageContent)
  | assistantMsg (id : String) (date : String) (content : MessageContent)
  | reasoningMsg (id : String) (date : String) (reasoning : String)
      (name : Option String) (otid : Option String) (senderId : Option String)
      (stepId : Option String) (isErr : Option Bool) (seqId : Option Int)
      (runId : Option String) (source : Option String)
  | toolCallMsg (id : String) (date : String) (toolCall : Option ToolCallInfo)
  | toolReturnMsg (id : String) (date : String) (name : Option String)
      (toolCallId : Option String) (status : String) (toolReturn : JsVal)
      (stdout : Option String) (stderr : Option String)
      (otid : Option String) (senderId : Option String) (stepId : Option String)
      (isErr : Option Bool) (seqId : Option Int) (runId : Option String)

/-- The `messageType` discriminant string of an event. -/
def LettaMessage.messageType : LettaMessage → String
  | .systemMsg .. => "system_message"
  | .userMsg .. => "user_message"
  | .assistantMsg .. => "assistant_message"
  | .reasoningMsg .. => "reasoning_message"
  | .toolCallMsg .. => "tool_call_message"
  | .toolReturnMsg .. => "tool_return_message"

/-- The `id` field of an event. -/
def LettaMessage.id : LettaMessage → String
  | .systemMsg id .. => id
  | .userMsg id .. => id
  | .assistantMsg id .. => id
  | .reasoningMsg id .. => id
  | .toolCallMsg id .. => id
  | .toolReturnMsg id .. => id

/-- The `providerMetadata.letta` record embedded in a reasoning part. -/
structure ReasoningMeta where
  id : String
  date : String
  name : Option String
  messageType : String
  otid : Option String
  senderId : Option String
  stepId : Option String
  isErr : Option Bool
  seqId : Option Int
  runId : Option String
  reasoning : String
  source : Option String

/-- The `callProviderMetadata.letta` record embedded in a tool-return part. -/
structure ToolReturnMeta where
  id : String
  date : String
  name : Option String
  messageType : String
  otid : Option String
  senderId : Option String
  stepId : Option String
  isErr : Option Bool
  seqId : Option Int
  runId : Option String
  toolReturn : JsVal
  status : String
  toolCallId : Option String
  stdout : Option String
  stderr : Option String

/-- UI part union: `TextUIPart`, `FileUIPart`, `ReasoningUIPart`, `ToolUIPart`.
The text payload of a text part is kept as a raw value, mirroring the
unchecked `text: (val as any).text` in the source; the tool part's `type`
string carries the dynamic `tool-` ++ name tag. -/
inductive UIPart where
  | text (text : JsVal)
  | file (url : String) (mediaType : String)
  | reasoning (text : String) (providerMetadata : ReasoningMeta)
  | tool (type : String) (toolCallId : String) (state : String)
      (input : JsVal) (output : JsVal) (errorText : Option String)
      (callProviderMetadata : Option ToolReturnMeta)

/-- `UIMessage`: role, id and ordered parts. -/
structure UIMessage where
  role : String
  id : String
  parts : List UIPart

/-- The fragment loop of `transformMessageContent` (the `for` over the
content array), returning the collected parts or the thrown error. -/
def transformFragments : List JsVal → Except ConvError (List UIPart)
  | [] => .ok []
  | val :: rest =>
    match val.get "type" with
    | .str "text" =>
        (transformFragments rest).map (fun parts => UIPart.text (val.get "text") :: parts)
    | .str "image_url" =>
        match jsCoalesce ((val.get "imageUrl").optGetField "url") (val.get "imageUrl") with
        | .str url => (transformFragments rest).map (fun parts => UIPart.file url "image/*" :: parts)
        | _ => transformFragments rest
    | .str "input_audio" =>
        match jsCoalesce ((val.get "inputAudio").optGetField "url") .undef with
        | .str url => (transformFragments rest).map (fun parts => UIPart.file url "audio/*" :: parts)
        | _ => transformFragments rest
    | partType => .error (.unsupportedContentType (jsDisplay partType))

/-- `transformMessageContent`: string content becomes a single text part,
array content runs the fragment loop. -/
def transformMessageContent : MessageContent → Except ConvError (List UIPart)
  | .arr vals => transformFragments vals
  | .str s => .ok [UIPart.text (.str s)]

/-- `message.toolCall?.name || ""` and the like: the `||` fallback only
replaces an absent (or already empty) string by the empty string. -/
def strOrEmpty : Option String → String
  | some s => s
  | none => ""

/-- `message.toolCall?.arguments || {}`. -/
def toolCallArgs : Option ToolCallInfo → JsVal
  | some t => if t.arguments.truthy then t.arguments else .obj []
  | none => .obj []

/-- The parts one processed event appends to its UI message, per the
kind dispatch of `convertToAiSdkMessage` (lines 204-327 of the source). -/
def eventParts : LettaMessage → Except ConvError (List UIPart)
  | .systemMsg _ _ content => .ok [UIPart.text (.str content)]
  | .userMsg _ _ content => transformMessageContent content
  | .assistantMsg _ _ content => transformMessageContent content
  | .reasoningMsg id date reasoning name otid senderId stepId isErr seqId runId source =>
      .ok [UIPart.reasoning reasoning
        (ReasoningMeta.mk id date name "reasoning_message" otid senderId stepId
          isErr seqId runId reasoning source)]
  | .toolCallMsg _ _ toolCall =>
      .ok [UIPart.tool ("tool-" ++ strOrEmpty (toolCall.map ToolCallInfo.name))
        (strOrEmpty (toolCall.map ToolCallInfo.toolCallId))
        "output-available" (toolCallArgs toolCall) (.str "") none none]
  | .toolReturnMsg id date name toolCallId status toolReturn stdout stderr otid senderId stepId isErr seqId runId =>
      .ok [UIPart.tool ("tool-" ++ strOrEmpty name) (strOrEmpty toolCallId)
        (if status = "error" then "output-error" else "output-available")
        (.obj []) toolReturn
        (if status = "error" then
          (match toolReturn with
           | .str s => some s
           | _ => jsonStringify toolReturn)
         else none)
        (some (ToolReturnMeta.mk id date name "tool_return_message" otid senderId
          stepId isErr seqId runId toolReturn status toolCallId stdout stderr))]

/-- The role each event kind writes into its UI message: system/user/assistant
events write their own kind, reasoning and tool events write `assistant`. -/
def roleFor : LettaMessage → String
  | .systemMsg .. => "system"
  | .userMsg .. => "user"
  | .assistantMsg .. => "assistant"
  | .reasoningMsg .. => "assistant"
  | .toolCallMsg .. => "assistant"
  | .toolReturnMsg .. => "assistant"

/-- `ConvertToAiSdkMessageOptions`; `none` models an absent
`allowMessageTypes` field. -/
structure ConvertToAiSdkMessageOptions where
  allowMessageTypes : Option (List String)

/-- The module-level default options: all six kinds allowed. -/
def baseOptions : ConvertToAiSdkMessageOptions :=
  ⟨some ["user_message", "assistant_message", "system_message",
    "tool_call_message", "tool_return_message", "reasoning_message"]⟩

/-- `new Set(options.allowMessageTypes || [])`, as the underlying list. -/
def allowListOf (options : ConvertToAiSdkMessageOptions) : List String :=
  options.allowMessageTypes.getD []

/-- Own-property test on the accumulator object: whether an own entry was
created for `id` by a previous `sdkMessageObj[id] = ...` assignment.  This
is only half of the `!sdkMessageObj[id]` guard; the other half is the
prototype chain, handled by `protoName` in `processOne`. -/
def recHas : List (String × UIMessage) → String → Bool
  | [], _ => false
  | e :: rest, k => if e.1 = k then true else recHas rest k

/-- The own property names of `Object.prototype`.  On a plain `{}` object
with no own entry for `id`, the lookup `sdkMessageObj[id]` returns the
inherited member for these ids — a function (or, for `__proto__`, the
prototype object), which is truthy. -/
def protoName (s : String) : Bool :=
  ["constructor", "hasOwnProperty", "isPrototypeOf", "propertyIsEnumerable",
   "toLocaleString", "toString", "valueOf", "__defineGetter__",
   "__defineSetter__", "__lookupGetter__", "__lookupSetter__",
   "__proto__"].contains s

/-- In-place update of the entry stored under key `k` (JS property
assignment on an existing key keeps its position). -/
def recModify : List (String × UIMessage) → String → (UIMessage → UIMessage) → List (String × UIMessage)
  | [], _, _ => []
  | e :: rest, k, f => if e.1 = k then (e.1, f e.2) :: rest else e :: recModify rest k f

/-- One iteration of the `messages.forEach` body: skip disallowed kinds,
then follow the `!sdkMessageObj[message.id]` guard.  The guard is a
truthiness test on a prototype-chain lookup: for an id naming an
`Object.prototype` member the inherited value is truthy, so no own entry
is ever created and the role/parts writes land on the inherited object,
which `Object.values` never returns — the event's content transform still
runs (and can still throw) before those writes.  For every other id the
guard reduces to the own-entry test: lazily create the entry, set the role
for the kind and append the kind's parts.  (The source sets the role
before running the content transform; since a thrown error discards the
whole call, folding the two writes into one update is observationally
identical.) -/
def processOne (allow : List String) (st : List (String × UIMessage)) (m : LettaMessage) :
    Except ConvError (List (String × UIMessage)) :=
  if allow.contains m.messageType then
    match eventParts m with
    | .error e => .error e
    | .ok newParts =>
        if protoName m.id then .ok st
        else
          let st1 := if recHas st m.id then st else st ++ [(m.id, UIMessage.mk "assistant" m.id [])]
          .ok (recModify st1 m.id (fun u => UIMessage.mk (roleFor m) u.id (u.parts ++ newParts)))
  else .ok st

/-- Value of a decimal digit string (most significant first). -/
def decValueAux (acc : Nat) : List Char → Nat
  | [] => acc
  | c :: cs => decValueAux (acc * 10 + (c.toNat - 48)) cs

/-- A string that is a JavaScript array index: a nonempty all-digit
string without a leading zero (except `0` itself) whose value is below
`2^32 - 1`. -/
def isArrayIndex (s : String) : Bool :=
  match s.data with
  | [] => false
  | c :: cs =>
      (c :: cs).all Char.isDigit && (c != '0' || cs.isEmpty) &&
        decide (decValueAux 0 (c :: cs) < 4294967295)

/-- Numeric value used to order array-index keys. -/
def idxKey (s : String) : Nat := decValueAux 0 s.data

/-- `Object.values` on a string-keyed object: own array-index keys first
in ascending numeric order, then the remaining string keys in insertion
order. -/
def objectValues (st : List (String × UIMessage)) : List UIMessage :=
  (List.insertionSort (fun a b => idxKey a.1 ≤ idxKey b.1)
      (st.filter (fun e => isArrayIndex e.1))
    ++ st.filter (fun e => !isArrayIndex e.1)).map Prod.snd

/-- The `messages.forEach` loop over the accumulator object: left-to-right,
a thrown error aborts immediately. -/
def processAll (allow : List String) : List (String × UIMessage) → List LettaMessage →
    Except ConvError (List (String × UIMessage))
  | st, [] => .ok st
  | st, m :: ms =>
    match processOne allow st m with
    | .error e => .error e
    | .ok st1 => processAll allow st1 ms

/-- `convertToAiSdkMessage(messages, options)`. -/
def convertToAiSdkMessage (messages : List LettaMessage)
    (options : ConvertToAiSdkMessageOptions) : Except ConvError (List UIMessage) :=
  match processAll (allowListOf options) [] messages with
  | .error e => .error e
  | .ok st => .ok (objectValues st)

/-- `convertToAiSdkMessage(messages)` with the options argument omitted:
the default parameter supplies `baseOptions`. -/
def convertToAiSdkMessageDefault (messages : List LettaMessage) :
    Except ConvError (List UIMessage) :=
  convertToAiSdkMessage messages baseOptions

/-- A content part of an AI-SDK prompt message, as `transformContentParts`
reads it: a discriminant `type` string and the `text` payload (kept raw,
mirroring the untyped passthrough `text: part.text`). -/
structure PromptPart where
  type : String
  text : JsVal

/-- System-prompt content: a plain string, a parts array, or any other
already-normalized value (passed through unchanged). -/
inductive SystemContent where
  | strC (s : String)
  | partsC (parts : List PromptPart)
  | otherC (v : JsVal)

/-- One message of a `LanguageModelV2Prompt`, by role.  The converter
never reads the content of assistant/tool/unknown-role messages before
throwing, so those carry no payload here. -/
inductive PromptMessage where
  | user (content : List PromptPart)
  | assistant
  | tool
  | system (content : SystemContent)
  | otherRole

/-- A normalized outbound content fragment (`{ type: "text", text }`). -/
inductive LettaContentPart where
  | textC (text : JsVal)

/-- Content of an outbound system `MessageCreate`. -/
inductive SystemOutContent where
  | strC (s : String)
  | partsC (parts : List LettaContentPart)
  | rawC (v : JsVal)

/-- A Letta `MessageCreate` produced by the Outbound Flattener. -/
inductive MessageCreate where
  | user (content : List LettaContentPart)
  | system (content : SystemOutContent)

/-- Leading-segment test on character lists: `charsLead p s` holds when
`p` is an initial segment of `s`. -/
def charsLead : List Char → List Char → Bool
  | [], _ => true
  | _ :: _, [] => false
  | a :: as, b :: bs => a == b && charsLead as bs

/-- `s.startsWith(p)`, on the underlying character lists. -/
def strStartsWith (s p : String) : Bool := charsLead p.data s.data

/-- `transformContentParts`: text parts pass through, parts whose type
starts with `tool-` are dropped, everything else throws. -/
def transformContentParts : List PromptPart → Except ConvError (List LettaContentPart)
  | [] => .ok []
  | p :: rest =>
    if p.type = "text" then
      (transformContentParts rest).map (fun parts => LettaContentPart.textC p.text :: parts)
    else if strStartsWith p.type "tool-" then
      transformContentParts rest
    else
      .error (.unsupportedContentType p.type)

/-- The per-message body of `convertToLettaMessage`'s `prompt.map`. -/
def convertOnePromptMessage : PromptMessage → Except ConvError MessageCreate
  | .user content => (transformContentParts content).map MessageCreate.user
  | .assistant => .error .assistantRoleNotSupported
  | .tool => .error .toolRoleNotSupported
  | .system (.strC s) => .ok (MessageCreate.system (SystemOutContent.strC s))
  | .system (.partsC ps) =>
      (transformContentParts ps).map (fun l => MessageCreate.system (SystemOutContent.partsC l))
  | .system (.otherC v) => .ok (MessageCreate.system (SystemOutContent.rawC v))
  | .otherRole => .error .roleNotSupported

/-- `convertToLettaMessage(prompt)`: `prompt.map` left-to-right, the first
thrown error aborts the map with no partial result. -/
def convertToLettaMessage : List PromptMessage → Except ConvError (List MessageCreate)
  | [] => .ok []
  | m :: rest =>
    (convertOnePromptMessage m).bind
      (fun c => (convertToLettaMessage rest).map (fun cs => c :: cs))

/-- Whether an event's kind is in the allow-list. -/
def isAllowed (allow : List String) (m : LettaMessage) : Bool :=
  allow.contains m.messageType

/-- Whether an event actually reaches the accumulator: its kind is in the
allow-list and its id does not name an `Object.prototype` member (for
prototype-named ids the truthy inherited lookup suppresses entry
creation, so the event contributes nothing to the output). -/
def isEffective (allow : List String) (m : LettaMessage) : Bool :=
  isAllowed allow m && !protoName m.id

/-- The distinct ids of the effective events (allowed kind, id not an
`Object.prototype` member name), in first-occurrence order. -/
def firstOccIds (allow : List String) (ms : List LettaMessage) : List String :=
  ms.foldl
    (fun acc m =>
      if isEffective allow m then (if acc.contains m.id then acc else acc ++ [m.id]) else acc)
    []

/-- Specification-side concatenation of the parts every allowed event
bearing id `k` contributes, in input order. -/
def partsForId (allow : List String) (k : String) : List LettaMessage → Except ConvError (List UIPart)
  | [] => .ok []
  | m :: ms =>
    if isAllowed allow m = true ∧ m.id = k then
      (eventParts m).bind (fun p => (partsForId allow k ms).map (fun rest => p ++ rest))
    else partsForId allow k ms

/-- Specification-side role: the role written by the last allowed event
bearing id `k`, if any. -/
def roleForId (allow : List String) (k : String) : List LettaMessage → Option String
  | [] => none
  | m :: ms =>
    match roleForId allow k ms with
    | some r => some r
    | none => if isAllowed allow m = true ∧ m.id = k then some (roleFor m) else none

/-- JavaScript own-property ordering for a list of distinct string keys:
array-index keys ascending, then the rest in original (insertion) order. -/
def jsOrderKeys (ks : List String) : List String :=
  List.insertionSort (fun a b => idxKey a ≤ idxKey b) (ks.filter isArrayIndex)
    ++ ks.filter (fun k => !isArrayIndex k)

lemma strContains_iff (l : List String) (s : String) : l.contains s = true ↔ s ∈ l := by
  induction l with
  | nil => simp
  | cons a l ih => simp [List.contains_cons] at ih ⊢

/-- The step function of `firstOccIds`, named for the fold lemmas. -/
def firstOccStep (allow : List String) (acc : List String) (m : LettaMessage) : List String :=
  if isEffective allow m then (if acc.contains m.id then acc else acc ++ [m.id]) else acc

lemma firstOccIds_eq_foldl (allow : List String) (ms : List LettaMessage) :
    firstOccIds allow ms = ms.foldl (firstOccStep allow) [] := rfl

lemma firstOccIds_snoc (allow : List String) (ps : List LettaMessage) (m : LettaMessage) :
    firstOccIds allow (ps ++ [m]) = firstOccStep allow (firstOccIds allow ps) m := by
  rw [firstOccIds_eq_foldl, List.foldl_append, firstOccIds_eq_foldl]
  rfl

lemma mem_firstOccStep (allow : List String) (acc : List String) (m : LettaMessage) (x : String) :
    x ∈ firstOccStep allow acc m ↔ x ∈ acc ∨ (isEffective allow m = true ∧ m.id = x) := by
  unfold firstOccStep
  by_cases ha : isEffective allow m = true
  · by_cases hc : acc.contains m.id = true
    · have hmem : m.id ∈ acc := (strContains_iff acc m.id).mp hc
      rw [if_pos ha, if_pos hc]
      constructor
      · exact fun h => Or.inl h
      · rintro (h | ⟨_, rfl⟩)
        · exact h
        · exact hmem
    · rw [if_pos ha, if_neg hc]
      simp only [List.mem_append, List.mem_singleton, ha, true_and]
      constructor
      · rintro (h | rfl)
        · exact Or.inl h
        · exact Or.inr rfl
      · rintro (h | rfl)
        · exact Or.inl h
        · exact Or.inr rfl
  · rw [if_neg ha]
    constructor
    · exact fun h => Or.inl h
    · rintro (h | ⟨hall, _⟩)
      · exact h
      · exact absurd hall ha

lemma mem_firstOccAux (allow : List String) :
    ∀ (ms : List LettaMessage) (acc : List String) (x : String),
      (x ∈ ms.foldl (firstOccStep allow) acc ↔
        x ∈ acc ∨ ∃ m, m ∈ ms ∧ isEffective allow m = true ∧ m.id = x) := by
  intro ms
  induction ms with
  | nil => simp
  | cons m ms ih =>
    intro acc x
    rw [List.foldl_cons, ih, mem_firstOccStep]
    constructor
    · rintro ((h | hm) | ⟨m', hm', hp⟩)
      · exact Or.inl h
      · exact Or.inr ⟨m, List.mem_cons_self m ms, hm⟩
      · exact Or.inr ⟨m', List.mem_cons_of_mem m hm', hp⟩
    · rintro (h | ⟨m', hm', hp⟩)
      · exact Or.inl (Or.inl h)
      · rcases List.mem_cons.mp hm' with rfl | hm''
        · exact Or.inl (Or.inr hp)
        · exact Or.inr ⟨m', hm'', hp⟩

lemma mem_firstOccIds (allow : List String) (ms : List LettaMessage) (x : String) :
    x ∈ firstOccIds allow ms ↔ ∃ m, m ∈ ms ∧ isEffective allow m = true ∧ m.id = x := by
  rw [firstOccIds_eq_foldl, mem_firstOccAux]
  simp

lemma nodup_firstOccStep (allow : List String) (acc : List String) (m : LettaMessage)
    (h : acc.Nodup) : (firstOccStep allow acc m).Nodup := by
  unfold firstOccStep
  by_cases ha : isEffective allow m = true
  · by_cases hc : acc.contains m.id = true
    · rw [if_pos ha, if_pos hc]; exact h
    · have hmem : m.id ∉ acc := fun hx => hc ((strContains_iff acc m.id).mpr hx)
      rw [if_pos ha, if_neg hc]
      simp [List.nodup_append, h, hmem]
  · rw [if_neg ha]; exact h

lemma nodup_firstOccAux (allow : List String) :
    ∀ (ms : List LettaMessage) (acc : List String), acc.Nodup →
      (ms.foldl (firstOccStep allow) acc).Nodup := by
  intro ms
  induction ms with
  | nil => intro acc h; simpa using h
  | cons m ms ih =>
    intro acc h
    rw [List.foldl_cons]
    exact ih _ (nodup_firstOccStep allow acc m h)

lemma nodup_firstOccIds (allow : List String) (ms : List LettaMessage) :
    (firstOccIds allow ms).Nodup := by
  rw [firstOccIds_eq_foldl]
  exact nodup_firstOccAux allow ms [] List.nodup_nil

lemma partsForId_append (allow : List String) (k : String) (xs ys : List LettaMessage) :
    partsForId allow k (xs ++ ys) =
      (partsForId allow k xs).bind
        (fun a => (partsForId allow k ys).map (fun b => a ++ b)) := by
  induction xs with
  | nil =>
    simp only [List.nil_append, partsForId]
    cases partsForId allow k ys <;> simp [Except.bind, Except.map]
  | cons m xs ih =>
    have ih' : partsForId allow k (xs.append ys) =
        (partsForId allow k xs).bind
          (fun a => (partsForId allow k ys).map (fun b => a ++ b)) := ih
    simp only [List.cons_append, partsForId]
    by_cases hc : isAllowed allow m = true ∧ m.id = k
    · rw [if_pos hc, if_pos hc, ih']
      cases eventParts m <;> cases partsForId allow k xs <;>
        cases partsForId allow k ys <;> simp [Except.bind, Except.map]
    · rw [if_neg hc, if_neg hc, ih']

lemma partsForId_snoc_match (allow : List String) (k : String) (ps : List LettaMessage)
    (m : LettaMessage) (h : isAllowed allow m = true ∧ m.id = k) :
    partsForId allow k (ps ++ [m]) =
      (partsForId allow k ps).bind (fun a => (eventParts m).map (fun p => a ++ p)) := by
  rw [partsForId_append]
  simp only [partsForId, if_pos h]
  cases partsForId allow k ps <;> cases eventParts m <;> simp [Except.bind, Except.map]

lemma partsForId_snoc_no_match (allow : List String) (k : String) (ps : List LettaMessage)
    (m : LettaMessage) (h : ¬(isAllowed allow m = true ∧ m.id = k)) :
    partsForId allow k (ps ++ [m]) = partsForId allow k ps := by
  rw [partsForId_append]
  simp only [partsForId, if_neg h]
  cases partsForId allow k ps <;> simp [Except.bind, Except.map]

lemma partsForId_of_no_match (allow : List String) (k : String) :
    ∀ (ms : List LettaMessage), (∀ m ∈ ms, ¬(isAllowed allow m = true ∧ m.id = k)) →
      partsForId allow k ms = .ok [] := by
  intro ms
  induction ms with
  | nil => intro _; rfl
  | cons m ms ih =>
    intro h
    simp only [partsForId, if_neg (h m (List.mem_cons_self m ms))]
    exact ih (fun m' hm' => h m' (List.mem_cons_of_mem m hm'))

lemma roleForId_append (allow : List String) (k : String) (xs ys : List LettaMessage) :
    roleForId allow k (xs ++ ys) =
      match roleForId allow k ys with
      | some r => some r
      | none => roleForId allow k xs := by
  induction xs with
  | nil =>
    simp only [List.nil_append, roleForId]
    cases roleForId allow k ys <;> simp
  | cons m xs ih =>
    have ih' : roleForId allow k (xs.append ys) =
        match roleForId allow k ys with
        | some r => some r
        | none => roleForId allow k xs := ih
    simp only [List.cons_append, roleForId]
    rw [ih']
    cases roleForId allow k ys <;> simp

lemma roleForId_snoc_match (allow : List String) (k : String) (ps : List LettaMessage)
    (m : LettaMessage) (h : isAllowed allow m = true ∧ m.id = k) :
    roleForId allow k (ps ++ [m]) = some (roleFor m) := by
  rw [roleForId_append]
  simp [roleForId, if_pos h]

lemma roleForId_snoc_no_match (allow : List String) (k : String) (ps : List LettaMessage)
    (m : LettaMessage) (h : ¬(isAllowed allow m = true ∧ m.id = k)) :
    roleForId allow k (ps ++ [m]) = roleForId allow k ps := by
  rw [roleForId_append]
  simp only [roleForId, if_neg h]

lemma roleForId_of_no_match (allow : List String) (k : String) :
    ∀ (ms : List LettaMessage), (∀ m ∈ ms, ¬(isAllowed allow m = true ∧ m.id = k)) →
      roleForId allow k ms = none := by
  intro ms
  induction ms with
  | nil => intro _; rfl
  | cons m ms ih =>
    intro h
    simp only [roleForId, ih (fun m' hm' => h m' (List.mem_cons_of_mem m hm')),
      if_neg (h m (List.mem_cons_self m ms))]

lemma recHas_iff (st : List (String × UIMessage)) (k : String) :
    recHas st k = true ↔ k ∈ st.map Prod.fst := by
  induction st with
  | nil => simp [recHas]
  | cons e st ih =>
    simp only [recHas, List.map_cons, List.mem_cons]
    by_cases he : e.1 = k
    · simp [he]
    · simp only [if_neg he, ih]
      constructor
      · exact fun h => Or.inr h
      · rintro (h | h)
        · exact absurd h.symm he
        · exact h

lemma recModify_map_fst (st : List (String × UIMessage)) (k : String)
    (f : UIMessage → UIMessage) : (recModify st k f).map Prod.fst = st.map Prod.fst := by
  induction st with
  | nil => rfl
  | cons e st ih =>
    simp only [recModify]
    by_cases he : e.1 = k
    · simp [he]
    · simp [if_neg he, ih]

lemma mem_recModify (k : String) (f : UIMessage → UIMessage) :
    ∀ (st : List (String × UIMessage)), (st.map Prod.fst).Nodup →
      ∀ e, e ∈ recModify st k f →
        (e ∈ st ∧ e.1 ≠ k) ∨ (∃ u, (k, u) ∈ st ∧ e = (k, f u)) := by
  intro st
  induction st with
  | nil => intro _ e he; cases he
  | cons a st ih =>
    intro hnd e he
    simp only [List.map_cons, List.nodup_cons] at hnd
    simp only [recModify] at he
    by_cases ha : a.1 = k
    · subst ha
      rw [if_pos rfl] at he
      rcases List.mem_cons.mp he with rfl | he'
      · exact Or.inr ⟨a.2, List.mem_cons_self a st, rfl⟩
      · have hne : e.1 ≠ a.1 := by
          intro hk
          exact hnd.1 (hk ▸ List.mem_map_of_mem Prod.fst he')
        exact Or.inl ⟨List.mem_cons_of_mem a he', hne⟩
    · rw [if_neg ha] at he
      rcases List.mem_cons.mp he with rfl | he'
      · exact Or.inl ⟨List.mem_cons_self e st, ha⟩
      · rcases ih hnd.2 e he' with ⟨hm, hne⟩ | ⟨u, hu, heq⟩
        · exact Or.inl ⟨List.mem_cons_of_mem a hm, hne⟩
        · exact Or.inr ⟨u, List.mem_cons_of_mem a hu, heq⟩

lemma recModify_append_new (k : String) (f : UIMessage → UIMessage) (u : UIMessage) :
    ∀ (st : List (String × UIMessage)), k ∉ st.map Prod.fst →
      recModify (st ++ [(k, u)]) k f = st ++ [(k, f u)] := by
  intro st
  induction st with
  | nil => intro _; simp [recModify]
  | cons a st ih =>
    intro hk
    simp only [List.map_cons, List.mem_cons] at hk
    push_neg at hk
    have ih' : recModify (st.append [(k, u)]) k f = st ++ [(k, f u)] := ih hk.2
    have hne : ¬(a.1 = k) := fun h => hk.1 h.symm
    simp only [List.cons_append, recModify, ih', if_neg hne]

/-- The loop invariant of the `forEach` over the accumulator object:
after the processed prefix `ps`, the own keys are the effective ids
(allowed kind, id not an `Object.prototype` member name) in
first-occurrence order and every entry holds exactly the parts and the
role the processed prefix dictates for its id. -/
def StInv (allow : List String) (ps : List LettaMessage)
    (st : List (String × UIMessage)) : Prop :=
  st.map Prod.fst = firstOccIds allow ps ∧
  ∀ e, e ∈ st → e.2.id = e.1 ∧
    partsForId allow e.1 ps = .ok e.2.parts ∧
    roleForId allow e.1 ps = some e.2.role

lemma isEffective_iff (allow : List String) (m : LettaMessage) :
    isEffective allow m = true ↔ isAllowed allow m = true ∧ protoName m.id = false := by
  unfold isEffective
  cases h1 : isAllowed allow m <;> cases h2 : protoName m.id <;> simp

lemma processOne_inv (allow : List String) (ps : List LettaMessage)
    (st st' : List (String × UIMessage)) (m : LettaMessage)
    (hinv : StInv allow ps st) (hp : processOne allow st m = .ok st') :
    StInv allow (ps ++ [m]) st' := by
  obtain ⟨hkeys, hent⟩ := hinv
  have hknd : (st.map Prod.fst).Nodup := hkeys ▸ nodup_firstOccIds allow ps
  have hkeysnp : ∀ x ∈ st.map Prod.fst, protoName x = false := by
    intro x hx
    rw [hkeys, mem_firstOccIds] at hx
    obtain ⟨m', _, heff, hid⟩ := hx
    rw [isEffective_iff] at heff
    rw [← hid]
    exact heff.2
  by_cases ha : allow.contains m.messageType = true
  · have hall : isAllowed allow m = true := ha
    cases hev : eventParts m with
    | error e =>
      rw [processOne, if_pos ha, hev] at hp
      cases hp
    | ok newParts =>
      simp only [processOne, if_pos ha, hev] at hp
      by_cases hproto : protoName m.id = true
      · -- prototype-named id: the truthy inherited lookup suppresses the
        -- entry, so the accumulator is unchanged
        rw [if_pos hproto] at hp
        injection hp with hst
        subst hst
        have heff : ¬(isEffective allow m = true) := by
          rw [isEffective_iff]
          rintro ⟨_, hpf⟩
          rw [hproto] at hpf
          cases hpf
        constructor
        · rw [hkeys, firstOccIds_snoc]
          unfold firstOccStep
          rw [if_neg heff]
        · intro e he
          obtain ⟨hid, hparts, hrole⟩ := hent e he
          have hne : ¬(isAllowed allow m = true ∧ m.id = e.1) := by
            rintro ⟨_, hide⟩
            have hef : protoName e.1 = false :=
              hkeysnp e.1 (List.mem_map_of_mem Prod.fst he)
            rw [← hide, hproto] at hef
            cases hef
          exact ⟨hid, by rw [partsForId_snoc_no_match allow e.1 ps m hne]; exact hparts,
            by rw [roleForId_snoc_no_match allow e.1 ps m hne]; exact hrole⟩
      · -- ordinary id: create or update the own entry
        have hpf : protoName m.id = false := by
          cases hb : protoName m.id
          · rfl
          · exact absurd hb hproto
        have heff : isEffective allow m = true := (isEffective_iff allow m).mpr ⟨hall, hpf⟩
        rw [if_neg hproto] at hp
        by_cases hhas : recHas st m.id = true
        · have hkmem : m.id ∈ st.map Prod.fst := (recHas_iff st m.id).mp hhas
          rw [if_pos hhas] at hp
          injection hp with hst
          subst hst
          constructor
          · rw [recModify_map_fst, hkeys, firstOccIds_snoc]
            unfold firstOccStep
            rw [if_pos heff,
              if_pos ((strContains_iff _ m.id).mpr (hkeys ▸ hkmem))]
          · intro e he
            rcases mem_recModify m.id _ st hknd e he with ⟨hmem, hne⟩ | ⟨u, hu, heq⟩
            · obtain ⟨hid, hparts, hrole⟩ := hent e hmem
              have hnm : ¬(isAllowed allow m = true ∧ m.id = e.1) :=
                fun h => hne h.2.symm
              exact ⟨hid, by rw [partsForId_snoc_no_match allow e.1 ps m hnm]; exact hparts,
                by rw [roleForId_snoc_no_match allow e.1 ps m hnm]; exact hrole⟩
            · obtain ⟨hid, hparts, hrole⟩ := hent (m.id, u) hu
              subst heq
              refine ⟨hid, ?_, ?_⟩
              · rw [partsForId_snoc_match allow m.id ps m ⟨hall, rfl⟩, hparts, hev]
                simp [Except.bind, Except.map]
              · rw [roleForId_snoc_match allow m.id ps m ⟨hall, rfl⟩]
        · have hkne : m.id ∉ st.map Prod.fst :=
            fun hmem => hhas ((recHas_iff st m.id).mpr hmem)
          rw [if_neg hhas] at hp
          rw [recModify_append_new m.id _ _ st hkne] at hp
          injection hp with hst
          subst hst
          have hnops : ∀ m' ∈ ps, ¬(isAllowed allow m' = true ∧ m'.id = m.id) := by
            intro m' hm' ⟨hall', hid'⟩
            have heff' : isEffective allow m' = true := by
              rw [isEffective_iff]
              exact ⟨hall', by rw [hid']; exact hpf⟩
            exact hkne (hkeys ▸ (mem_firstOccIds allow ps m.id).mpr ⟨m', hm', heff', hid'⟩)
          constructor
          · rw [List.map_append, hkeys, firstOccIds_snoc]
            unfold firstOccStep
            have hnc : ¬((firstOccIds allow ps).contains m.id = true) :=
              fun hc => hkne (hkeys ▸ (strContains_iff _ m.id).mp hc)
            rw [if_pos heff, if_neg hnc]
            rfl
          · intro e he
            rcases List.mem_append.mp he with hmem | hnew
            · obtain ⟨hid, hparts, hrole⟩ := hent e hmem
              have hne : ¬(isAllowed allow m = true ∧ m.id = e.1) := by
                rintro ⟨_, hue⟩
                exact hkne (hue ▸ List.mem_map_of_mem Prod.fst hmem)
              exact ⟨hid, by rw [partsForId_snoc_no_match allow e.1 ps m hne]; exact hparts,
                by rw [roleForId_snoc_no_match allow e.1 ps m hne]; exact hrole⟩
            · have hnew' : e = (m.id, UIMessage.mk (roleFor m) m.id ([] ++ newParts)) := by
                simpa using hnew
              subst hnew'
              refine ⟨rfl, ?_, ?_⟩
              · rw [partsForId_snoc_match allow m.id ps m ⟨hall, rfl⟩,
                  partsForId_of_no_match allow m.id ps hnops, hev]
                simp [Except.bind, Except.map]
              · rw [roleForId_snoc_match allow m.id ps m ⟨hall, rfl⟩]
  · have hnall : ¬(isAllowed allow m = true) := ha
    have heff : ¬(isEffective allow m = true) := by
      rw [isEffective_iff]
      rintro ⟨h1, _⟩
      exact hnall h1
    rw [processOne, if_neg ha] at hp
    injection hp with hst
    subst hst
    constructor
    · rw [hkeys, firstOccIds_snoc]
      unfold firstOccStep
      rw [if_neg heff]
    · intro e he
      obtain ⟨hid, hparts, hrole⟩ := hent e he
      have hne : ¬(isAllowed allow m = true ∧ m.id = e.1) := fun h => hnall h.1
      exact ⟨hid, by rw [partsForId_snoc_no_match allow e.1 ps m hne]; exact hparts,
        by rw [roleForId_snoc_no_match allow e.1 ps m hne]; exact hrole⟩

lemma processAll_inv (allow : List String) :
    ∀ (ms ps : List LettaMessage) (st st' : List (String × UIMessage)),
      StInv allow ps st → processAll allow st ms = .ok st' →
      StInv allow (ps ++ ms) st' := by
  intro ms
  induction ms with
  | nil =>
    intro ps st st' hinv hp
    injection hp with hst
    subst hst
    simpa using hinv
  | cons m ms ih =>
    intro ps st st' hinv hp
    rw [processAll] at hp
    cases ho : processOne allow st m with
    | error e => rw [ho] at hp; cases hp
    | ok st1 =>
      rw [ho] at hp
      have hinv1 := processOne_inv allow ps st st1 m hinv ho
      have := ih (ps ++ [m]) st1 st' hinv1 hp
      simpa using this

lemma convertToAiSdkMessage_ok (ms : List LettaMessage)
    (opts : ConvertToAiSdkMessageOptions) (out : List UIMessage)
    (h : convertToAiSdkMessage ms opts = .ok out) :
    ∃ st, StInv (allowListOf opts) ms st ∧ out = objectValues st := by
  rw [convertToAiSdkMessage] at h
  cases hp : processAll (allowListOf opts) [] ms with
  | error e => rw [hp] at h; cases h
  | ok st =>
    rw [hp] at h
    injection h with hout
    refine ⟨st, ?_, hout.symm⟩
    have hinv0 : StInv (allowListOf opts) [] [] := by
      constructor
      · rfl
      · intro e he; cases he
    simpa using processAll_inv (allowListOf opts) ms [] [] st hinv0 hp

lemma map_fst_orderedInsert (e : String × UIMessage) :
    ∀ (l : List (String × UIMessage)),
      (List.orderedInsert (fun a b => idxKey a.1 ≤ idxKey b.1) e l).map Prod.fst =
        List.orderedInsert (fun a b => idxKey a ≤ idxKey b) e.1 (l.map Prod.fst) := by
  intro l
  induction l with
  | nil => rfl
  | cons b l ih =>
    simp only [List.orderedInsert, List.map_cons]
    by_cases h : idxKey e.1 ≤ idxKey b.1
    · rw [if_pos h, if_pos h]
      simp
    · rw [if_neg h, if_neg h]
      simp [ih]

lemma map_fst_insertionSort :
    ∀ (l : List (String × UIMessage)),
      (List.insertionSort (fun a b => idxKey a.1 ≤ idxKey b.1) l).map Prod.fst =
        List.insertionSort (fun a b => idxKey a ≤ idxKey b) (l.map Prod.fst) := by
  intro l
  induction l with
  | nil => rfl
  | cons b l ih =>
    simp only [List.insertionSort, List.map_cons]
    rw [map_fst_orderedInsert, ih]

lemma map_fst_filter_key (p : String → Bool) :
    ∀ (l : List (String × UIMessage)),
      (l.filter (fun e => p e.1)).map Prod.fst = (l.map Prod.fst).filter p := by
  intro l
  induction l with
  | nil => rfl
  | cons b l ih =>
    simp only [List.map_cons, List.filter]
    cases hb : p b.1 <;> simp [hb, ih]

lemma objectValues_map_id (st : List (String × UIMessage))
    (hid : ∀ e ∈ st, e.2.id = e.1) :
    (objectValues st).map (fun u => u.id) = jsOrderKeys (st.map Prod.fst) := by
  unfold objectValues jsOrderKeys
  rw [List.map_map, List.map_append]
  have hsortmem : ∀ e ∈ List.insertionSort (fun a b => idxKey a.1 ≤ idxKey b.1)
      (st.filter (fun e => isArrayIndex e.1)), e ∈ st := by
    intro e he
    exact List.mem_of_mem_filter ((List.mem_insertionSort _).mp he)
  have h1 : (List.insertionSort (fun a b => idxKey a.1 ≤ idxKey b.1)
      (st.filter (fun e => isArrayIndex e.1))).map ((fun u => u.id) ∘ Prod.snd) =
      (List.insertionSort (fun a b => idxKey a.1 ≤ idxKey b.1)
      (st.filter (fun e => isArrayIndex e.1))).map Prod.fst := by
    apply List.map_congr_left
    intro e he
    exact hid e (hsortmem e he)
  have h2 : (st.filter (fun e => !isArrayIndex e.1)).map ((fun u => u.id) ∘ Prod.snd) =
      (st.filter (fun e => !isArrayIndex e.1)).map Prod.fst := by
    apply List.map_congr_left
    intro e he
    exact hid e (List.mem_of_mem_filter he)
  rw [h1, h2, map_fst_insertionSort, map_fst_filter_key isArrayIndex st,
    map_fst_filter_key (fun k => !isArrayIndex k) st]

lemma mem_jsOrderKeys (ks : List String) (x : String) :
    x ∈ jsOrderKeys ks ↔ x ∈ ks := by
  unfold jsOrderKeys
  rw [List.mem_append, List.mem_insertionSort, List.mem_filter, List.mem_filter]
  by_cases hx : isArrayIndex x <;> simp [hx]

lemma convert_ok_map_id (ms : List LettaMessage) (opts : ConvertToAiSdkMessageOptions)
    (out : List UIMessage) (h : convertToAiSdkMessage ms opts = .ok out) :
    out.map (fun u => u.id) = jsOrderKeys (firstOccIds (allowListOf opts) ms) := by
  obtain ⟨st, ⟨hkeys, hent⟩, hout⟩ := convertToAiSdkMessage_ok ms opts out h
  subst hout
  rw [objectValues_map_id st (fun e he => (hent e he).1), hkeys]

/-- The conversion result is an error (no result of any kind). -/
def resultIsError {α : Type} : Except ConvError α → Bool
  | .error _ => true
  | .ok _ => false

/-- The conversion result is one of the three unsupported-role errors. -/
def resultRoleErr {α : Type} : Except ConvError α → Bool
  | .error .assistantRoleNotSupported => true
  | .error .toolRoleNotSupported => true
  | .error .roleNotSupported => true
  | _ => false

lemma transformFragments_error_tag :
    ∀ (vals : List JsVal) (e : ConvError), transformFragments vals = .error e →
      ∃ t, e = ConvError.unsupportedContentType t := by
  intro vals
  induction vals with
  | nil => intro e h; cases h
  | cons v rest ih =>
    intro e h
    simp only [transformFragments] at h
    split at h
    · cases hr : transformFragments rest with
      | error e' =>
        rw [hr] at h
        injection h with h2
        subst h2
        exact ih _ hr
      | ok l => rw [hr] at h; cases h
    · split at h
      · cases hr : transformFragments rest with
        | error e' =>
          rw [hr] at h
          injection h with h2
          subst h2
          exact ih _ hr
        | ok l => rw [hr] at h; cases h
      · exact ih e h
    · split at h
      · cases hr : transformFragments rest with
        | error e' =>
          rw [hr] at h
          injection h with h2
          subst h2
          exact ih _ hr
        | ok l => rw [hr] at h; cases h
      · exact ih e h
    · cases h
      exact ⟨_, rfl⟩

lemma eventParts_error_tag (m : LettaMessage) (e : ConvError)
    (h : eventParts m = .error e) : ∃ t, e = ConvError.unsupportedContentType t := by
  cases m with
  | userMsg id date content =>
    cases content with
    | str s => cases h
    | arr vals => exact transformFragments_error_tag vals e h
  | assistantMsg id date content =>
    cases content with
    | str s => cases h
    | arr vals => exact transformFragments_error_tag vals e h
  | systemMsg id date content => cases h
  | reasoningMsg => cases h
  | toolCallMsg => cases h
  | toolReturnMsg => cases h

lemma processOne_error_tag (allow : List String) (st : List (String × UIMessage))
    (m : LettaMessage) (e : ConvError) (h : processOne allow st m = .error e) :
    ∃ t, e = ConvError.unsupportedContentType t := by
  unfold processOne at h
  split at h
  · split at h
    case _ e' heq =>
      injection h with h2
      subst h2
      exact eventParts_error_tag m _ heq
    case _ newParts heq =>
      split at h <;> cases h
  · cases h

lemma processAll_error_tag (allow : List String) :
    ∀ (ms : List LettaMessage) (st : List (String × UIMessage)) (e : ConvError),
      processAll allow st ms = .error e → ∃ t, e = ConvError.unsupportedContentType t := by
  intro ms
  induction ms with
  | nil => intro st e h; cases h
  | cons m ms ih =>
    intro st e h
    rw [processAll] at h
    cases ho : processOne allow st m with
    | error e' =>
      rw [ho] at h
      injection h with h2
      subst h2
      exact processOne_error_tag allow st m _ ho
    | ok st1 =>
      rw [ho] at h
      exact ih st1 e h

/-- A prompt content part the outbound transform rejects: neither a text
part nor a `tool-` prefixed part. -/
def badPromptPart (p : PromptPart) : Bool :=
  if p.type = "text" then false
  else if strStartsWith p.type "tool-" then false
  else true

/-- A role the flattener rejects: assistant, tool, or anything else. -/
def badRole : PromptMessage → Bool
  | .assistant => true
  | .tool => true
  | .otherRole => true
  | _ => false

/-- A prompt message the flattener converts without error. -/
def validPromptMessage : PromptMessage → Bool
  | .user content => content.all (fun p => !badPromptPart p)
  | .system (.partsC ps) => ps.all (fun p => !badPromptPart p)
  | .system _ => true
  | _ => false

lemma transformContentParts_error_tag :
    ∀ (ps : List PromptPart) (e : ConvError), transformContentParts ps = .error e →
      ∃ t, e = ConvError.unsupportedContentType t := by
  intro ps
  induction ps with
  | nil => intro e h; cases h
  | cons p rest ih =>
    intro e h
    rw [transformContentParts] at h
    split at h
    · cases hr : transformContentParts rest with
      | error e' =>
        rw [hr] at h
        injection h with h2
        subst h2
        exact ih _ hr
      | ok l => rw [hr] at h; cases h
    · split at h
      · exact ih e h
      · cases h
        exact ⟨_, rfl⟩

lemma transformContentParts_ok_of_good :
    ∀ (ps : List PromptPart), ps.all (fun p => !badPromptPart p) = true →
      ∃ l, transformContentParts ps = .ok l := by
  intro ps
  induction ps with
  | nil => intro _; exact ⟨[], rfl⟩
  | cons p rest ih =>
    intro h
    rw [List.all_cons, Bool.and_eq_true] at h
    obtain ⟨l, hl⟩ := ih h.2
    have hp := h.1
    unfold badPromptPart at hp
    rw [transformContentParts]
    split
    · rw [hl]
      exact ⟨_, rfl⟩
    case _ ht =>
      split
      case _ => exact ⟨l, hl⟩
      case _ hs =>
        rw [if_neg ht, if_neg hs] at hp
        cases hp

lemma convertOne_ok_of_valid (m : PromptMessage) (h : validPromptMessage m = true) :
    ∃ c, convertOnePromptMessage m = .ok c := by
  cases m with
  | user content =>
    obtain ⟨l, hl⟩ := transformContentParts_ok_of_good content h
    exact ⟨MessageCreate.user l, by rw [convertOnePromptMessage, hl]; rfl⟩
  | system content =>
    cases content with
    | strC s => exact ⟨_, rfl⟩
    | partsC ps =>
      obtain ⟨l, hl⟩ := transformContentParts_ok_of_good ps h
      exact ⟨MessageCreate.system (SystemOutContent.partsC l),
        by rw [convertOnePromptMessage, hl]; rfl⟩
    | otherC v => exact ⟨_, rfl⟩
  | assistant => cases h
  | tool => cases h
  | otherRole => cases h

lemma convertOne_roleErr_of_badRole (m : PromptMessage) (h : badRole m = true) :
    resultRoleErr (convertOnePromptMessage m) = true := by
  cases m with
  | user content => cases h
  | system content => cases h
  | assistant => rfl
  | tool => rfl
  | otherRole => rfl

lemma convertToLettaMessage_roleErr :
    ∀ (prompt : List PromptMessage), prompt.any badRole = true →
      resultIsError (convertToLettaMessage prompt) = true ∧
      (prompt.all (fun m => badRole m || validPromptMessage m) = true →
        resultRoleErr (convertToLettaMessage prompt) = true) := by
  intro prompt
  induction prompt with
  | nil => intro h; cases h
  | cons m rest ih =>
    intro h
    rw [convertToLettaMessage]
    by_cases hbm : badRole m = true
    · have hre := convertOne_roleErr_of_badRole m hbm
      cases hc : convertOnePromptMessage m with
      | error e =>
        rw [hc] at hre
        refine ⟨rfl, fun _ => ?_⟩
        cases e with
        | unsupportedContentType t => simp [resultRoleErr] at hre
        | assistantRoleNotSupported => rfl
        | toolRoleNotSupported => rfl
        | roleNotSupported => rfl
      | ok c => rw [hc] at hre; cases hre
    · have hrestany : rest.any badRole = true := by
        rcases List.any_eq_true.mp h with ⟨m', hm', hbad⟩
        rcases List.mem_cons.mp hm' with rfl | hr
        · exact absurd hbad hbm
        · exact List.any_eq_true.mpr ⟨m', hr, hbad⟩
      have ihr := ih hrestany
      constructor
      · cases hc : convertOnePromptMessage m with
        | error e => rfl
        | ok c =>
          cases hr : convertToLettaMessage rest with
          | error e => simp [Except.bind, Except.map, hr, resultIsError]
          | ok l => rw [hr] at ihr; cases ihr.1
      · intro hvalid
        rw [List.all_cons, Bool.and_eq_true] at hvalid
        have hvm : validPromptMessage m = true := by
          rcases Bool.or_eq_true _ _ |>.mp hvalid.1 with hb | hv
          · exact absurd hb hbm
          · exact hv
        obtain ⟨c, hc⟩ := convertOne_ok_of_valid m hvm
        rw [hc]
        have hrr := ihr.2 hvalid.2
        cases hr : convertToLettaMessage rest with
        | error e =>
          rw [hr] at hrr
          simp only [Except.bind, Except.map]
          exact hrr
        | ok l => rw [hr] at hrr; cases hrr

lemma objectValues_singleton (k : String) (u : UIMessage) :
    objectValues [(k, u)] = [u] := by
  unfold objectValues
  cases h : isArrayIndex k <;> simp [h, List.filter]

lemma processAll_empty_allow : ∀ (ms : List LettaMessage) (st : List (String × UIMessage)),
    processAll [] st ms = .ok st := by
  intro ms
  induction ms with
  | nil => intro st; rfl
  | cons m ms ih =>
    intro st
    rw [processAll, processOne]
    have hc : ([] : List String).contains m.messageType = false := rfl
    rw [hc]
    simp only [Bool.false_eq_true, if_false]
    exact ih st

/-- An `image_url` fragment whose URL resolves neither from the nested
`url` field nor from the `imageUrl` value itself being a string. -/
def badImageFrag (v : JsVal) : Bool :=
  match v.get "type" with
  | .str "image_url" =>
      !(jsCoalesce ((v.get "imageUrl").optGetField "url") (v.get "imageUrl")).isString
  | _ => false

/-- An `input_audio` fragment whose nested `url` field is absent or not
a string. -/
def badAudioFrag (v : JsVal) : Bool :=
  match v.get "type" with
  | .str "input_audio" =>
      !(jsCoalesce ((v.get "inputAudio").optGetField "url") .undef).isString
  | _ => false

lemma badImageFrag_spec (v : JsVal) (h : badImageFrag v = true) :
    v.get "type" = .str "image_url" ∧
      (jsCoalesce ((v.get "imageUrl").optGetField "url") (v.get "imageUrl")).isString = false := by
  unfold badImageFrag at h
  split at h
  case _ heq => exact ⟨heq, by simpa using h⟩
  case _ => cases h

lemma badAudioFrag_spec (v : JsVal) (h : badAudioFrag v = true) :
    v.get "type" = .str "input_audio" ∧
      (jsCoalesce ((v.get "inputAudio").optGetField "url") .undef).isString = false := by
  unfold badAudioFrag at h
  split at h
  case _ heq => exact ⟨heq, by simpa using h⟩
  case _ => cases h

lemma transformFragments_drop_image (v : JsVal) (hbad : badImageFrag v = true) :
    ∀ (xs ys : List JsVal), transformFragments (xs ++ v :: ys) = transformFragments (xs ++ ys) := by
  obtain ⟨hty, hno⟩ := badImageFrag_spec v hbad
  intro xs
  induction xs with
  | nil =>
    intro ys
    simp only [List.nil_append, transformFragments, hty]
    cases hres : jsCoalesce ((v.get "imageUrl").optGetField "url") (v.get "imageUrl") with
    | str s => rw [hres] at hno; cases hno
    | undef => rfl
    | null => rfl
    | bool b => rfl
    | num n => rfl
    | arr l => rfl
    | obj l => rfl
  | cons x xs ih =>
    intro ys
    have ih2 : ∀ (zs : List JsVal),
        transformFragments (xs.append (v :: zs)) = transformFragments (xs.append zs) := ih
    simp only [List.cons_append, transformFragments]
    split
    · rw [ih2]
    · split
      · rw [ih2]
      · exact ih ys
    · split
      · rw [ih2]
      · exact ih ys
    · rfl

lemma transformFragments_drop_audio (v : JsVal) (hbad : badAudioFrag v = true) :
    ∀ (xs ys : List JsVal), transformFragments (xs ++ v :: ys) = transformFragments (xs ++ ys) := by
  obtain ⟨hty, hno⟩ := badAudioFrag_spec v hbad
  intro xs
  induction xs with
  | nil =>
    intro ys
    simp only [List.nil_append, transformFragments, hty]
    cases hres : jsCoalesce ((v.get "inputAudio").optGetField "url") .undef with
    | str s => rw [hres] at hno; cases hno
    | undef => rfl
    | null => rfl
    | bool b => rfl
    | num n => rfl
    | arr l => rfl
    | obj l => rfl
  | cons x xs ih =>
    intro ys
    have ih2 : ∀ (zs : List JsVal),
        transformFragments (xs.append (v :: zs)) = transformFragments (xs.append zs) := ih
    simp only [List.cons_append, transformFragments]
    split
    · rw [ih2]
    · split
      · rw [ih2]
      · exact ih ys
    · split
      · rw [ih2]
      · exact ih ys
    · rfl

/-- Bridging map for the text-only round trip: an inbound text part fed
back to the outbound transform as a prompt text part. -/
def uiPartToPromptPart (p : UIPart) : Option PromptPart :=
  match p with
  | .text t => some (PromptPart.mk "text" t)
  | _ => none

/-- Inbound transform of a plain string followed by the outbound
transform of the resulting text parts. -/
def textRoundTrip (s : String) : Except ConvError (List LettaContentPart) :=
  (transformMessageContent (.str s)).bind
    (fun parts => transformContentParts (parts.filterMap uiPartToPromptPart))

/-- C7: a plain string converts inbound to exactly one text part, a prompt
text part converts outbound to an equivalent text fragment, and text
content is stable under the inbound-then-outbound composition. -/
theorem text_round_trip (s : String) :
    transformMessageContent (.str s) = .ok [UIPart.text (.str s)] ∧
    transformContentParts [PromptPart.mk "text" (.str s)] =
      .ok [LettaContentPart.textC (.str s)] ∧
    textRoundTrip s = .ok [LettaContentPart.textC (.str s)] :=
  ⟨rfl, rfl, rfl⟩

/-- C10: an explicitly supplied options object without the
`allowMessageTypes` field replaces the allow-list by the empty set, so
every event is dropped and the conversion returns the empty sequence. -/
theorem explicit_options_missing_allowlist (ms : List LettaMessage) :
    convertToAiSdkMessage ms ⟨none⟩ = .ok [] := by
  rw [convertToAiSdkMessage]
  have hallow : allowListOf ⟨none⟩ = [] := rfl
  rw [hallow, processAll_empty_allow ms []]
  rfl

/-- C9: an `image_url` fragment whose URL resolves neither from a nested
`url` field nor from the value itself being a string, and an `input_audio`
fragment whose nested `url` is absent or not a string, are silently
dropped: the conversion of the surrounding array never errors because of
them and equals the conversion without the malformed fragment. -/
theorem malformed_optional_dropped (xs ys : List JsVal) (v : JsVal) :
    (badImageFrag v = true →
      transformMessageContent (.arr (xs ++ v :: ys)) =
        transformMessageContent (.arr (xs ++ ys))) ∧
    (badAudioFrag v = true →
      transformMessageContent (.arr (xs ++ v :: ys)) =
        transformMessageContent (.arr (xs ++ ys))) :=
  ⟨fun h => transformFragments_drop_image v h xs ys,
   fun h => transformFragments_drop_audio v h xs ys⟩

/-- Witness fragments for C9: a malformed image fragment between two
well-formed text fragments. -/
def wXs9 : List JsVal := [.obj [("type", .str "text"), ("text", .str "a")]]

def wV9 : JsVal := .obj [("type", .str "image_url"), ("imageUrl", .num 5)]

def wYs9 : List JsVal := [.obj [("type", .str "text"), ("text", .str "b")]]

/-- Witness for C9 at a concrete malformed image fragment. -/
theorem malformed_optional_dropped_witness :
    transformMessageContent (.arr (wXs9 ++ wV9 :: wYs9)) =
      transformMessageContent (.arr (wXs9 ++ wYs9)) :=
  (malformed_optional_dropped wXs9 wYs9 wV9).1 rfl

/-- C5: a prompt containing a message whose role is assistant, tool, or
any role other than user and system makes `convertToLettaMessage` fail
(no partial outbound sequence), and when all other messages are valid the
failure is specifically an unsupported-role error. -/
theorem outbound_role_rejection (prompt : List PromptMessage)
    (h : prompt.any badRole = true) :
    resultIsError (convertToLettaMessage prompt) = true ∧
    (prompt.all (fun m => badRole m || validPromptMessage m) = true →
      resultRoleErr (convertToLettaMessage prompt) = true) :=
  convertToLettaMessage_roleErr prompt h

/-- Witness prompt for C5: a valid user message followed by an assistant
message. -/
def wPrompt5 : List PromptMessage :=
  [.user [PromptPart.mk "text" (.str "hi")], .assistant]

/-- Witness for C5 at a concrete prompt. -/
theorem outbound_role_rejection_witness :
    resultIsError (convertToLettaMessage wPrompt5) = true ∧
    resultRoleErr (convertToLettaMessage wPrompt5) = true :=
  ⟨(outbound_role_rejection wPrompt5 rfl).1,
   (outbound_role_rejection wPrompt5 rfl).2 rfl⟩

/-- Input of the C8 counterexample: a user event and a reasoning event
sharing the id `valueOf`, an `Object.prototype` member name, under the
user-only allow-list. -/
def allowCexMsgs : List LettaMessage :=
  [.userMsg "valueOf" "d" (.str "hi"),
   .reasoningMsg "valueOf" "d" "think" none none none none none none none none]

/-- Counterexample for C8 as stated: for the id `valueOf` the program
returns no UI message at all instead of the single user-role message (the
truthy inherited `Object.prototype.valueOf` suppresses entry creation). -/
theorem allow_list_filtering_counterexample :
    protoName "valueOf" = true ∧
    convertToAiSdkMessage allowCexMsgs ⟨some ["user_message"]⟩ = .ok [] :=
  ⟨rfl, rfl⟩

/-- C8 (amended): with the allow-list restricted to `user_message`, a user
event and a reasoning event sharing an id that does not name an
`Object.prototype` member yield exactly one UI message with role user and
a single text part; in general an id occurring only in disallowed events
never appears among the output ids. -/
theorem allow_list_filtering :
    (∀ (id d1 d2 s r : String) (name otid senderId stepId : Option String)
      (isErr : Option Bool) (seqId : Option Int) (runId source : Option String),
      protoName id = false →
      convertToAiSdkMessage
        [.userMsg id d1 (.str s),
         .reasoningMsg id d2 r name otid senderId stepId isErr seqId runId source]
        ⟨some ["user_message"]⟩ =
        .ok [UIMessage.mk "user" id [UIPart.text (.str s)]]) ∧
    (∀ (ms : List LettaMessage) (opts : ConvertToAiSdkMessageOptions) (k : String)
      (out : List UIMessage),
      (∀ m ∈ ms, m.id = k → isAllowed (allowListOf opts) m = false) →
      convertToAiSdkMessage ms opts = .ok out →
      k ∉ out.map (fun u => u.id)) := by
  constructor
  · intro id d1 d2 s r name otid senderId stepId isErr seqId runId source hid
    simp +decide [convertToAiSdkMessage, processAll, processOne, eventParts,
      transformMessageContent, allowListOf, recHas, recModify, roleFor,
      LettaMessage.messageType, LettaMessage.id, isAllowed, objectValues_singleton, hid]
  · intro ms opts k out hdis h hmem
    rw [convert_ok_map_id ms opts out h, mem_jsOrderKeys, mem_firstOccIds] at hmem
    obtain ⟨m, hm, heff, hid⟩ := hmem
    have hall := ((isEffective_iff (allowListOf opts) m).mp heff).1
    rw [hdis m hm hid] at hall
    cases hall

/-- Witness events for C8: a user event with id `a` and a reasoning event
with id `b`, under the user-only allow-list. -/
def wMs8 : List LettaMessage :=
  [.userMsg "a" "d" (.str "hi"),
   .reasoningMsg "b" "d" "think" none none none none none none none none]

/-- Witness for C8 at concrete inputs for both conjuncts. -/
theorem allow_list_filtering_witness :
    convertToAiSdkMessage
      [.userMsg "wa" "d1" (.str "ws"),
       .reasoningMsg "wa" "d2" "wr" none none none none none none none none]
      ⟨some ["user_message"]⟩ =
      .ok [UIMessage.mk "user" "wa" [UIPart.text (.str "ws")]] ∧
    "b" ∉ ([UIMessage.mk "user" "a" [UIPart.text (.str "hi")]].map (fun u => u.id)) :=
  ⟨allow_list_filtering.1 "wa" "d1" "d2" "ws" "wr" none none none none none none none none rfl,
   allow_list_filtering.2 wMs8 ⟨some ["user_message"]⟩ "b"
     [UIMessage.mk "user" "a" [UIPart.text (.str "hi")]] (by decide) rfl⟩

/-- Input of the C6 counterexample: an error tool_return whose id names
the `Object.prototype` member `constructor`. -/
def toolRetCexMsgs : List LettaMessage :=
  [.toolReturnMsg "constructor" "d" (some "t") (some "c") "error"
    (.obj [("code", .num 7)]) none none none none none none none none]

/-- Counterexample for C6 as stated: for the id `constructor` the program
emits no UI message (and hence no tool part) at all — the truthy
inherited `Object.prototype.constructor` suppresses entry creation. -/
theorem error_state_tool_part_counterexample :
    protoName "constructor" = true ∧
    convertToAiSdkMessage toolRetCexMsgs baseOptions = .ok [] :=
  ⟨rfl, rfl⟩

/-- C6 (amended): a `tool_return` event with status `error` whose id does
not name an `Object.prototype` member yields an assistant UI message with
one tool part in state `output-error`, whose `errorText` is the raw value
when it is a string and its JSON serialization otherwise, while `output`
keeps the raw unserialized value; the serialization of `\x7bcode: 7\x7d`
is its canonical JSON text. -/
theorem error_state_tool_part (id date : String) (name toolCallId : Option String)
    (ret : JsVal) (stdout stderr otid senderId stepId : Option String)
    (isErr : Option Bool) (seqId : Option Int) (runId : Option String)
    (hid : protoName id = false) :
    convertToAiSdkMessage
      [.toolReturnMsg id date name toolCallId "error" ret stdout stderr otid
        senderId stepId isErr seqId runId]
      baseOptions =
      .ok [UIMessage.mk "assistant" id
        [UIPart.tool ("tool-" ++ strOrEmpty name) (strOrEmpty toolCallId) "output-error"
          (.obj []) ret
          (match ret with
           | .str s => some s
           | _ => jsonStringify ret)
          (some (ToolReturnMeta.mk id date name "tool_return_message" otid senderId
            stepId isErr seqId runId ret "error" toolCallId stdout stderr))]] ∧
    jsonStringify (.obj [("code", .num 7)]) = some "\x7b\x22code\x22:7\x7d" := by
  constructor
  · simp +decide [convertToAiSdkMessage, processAll, processOne, eventParts, allowListOf,
      recHas, recModify, roleFor, LettaMessage.messageType, LettaMessage.id,
      objectValues_singleton, hid]
  · rfl

/-- Witness for C6 at a concrete error return carrying the code-7 object. -/
theorem error_state_tool_part_witness :
    convertToAiSdkMessage
      [.toolReturnMsg "w6" "d" (some "t") (some "c") "error"
        (.obj [("code", .num 7)]) none none none none none none none none]
      baseOptions =
      .ok [UIMessage.mk "assistant" "w6"
        [UIPart.tool "tool-t" "c" "output-error" (.obj []) (.obj [("code", .num 7)])
          (some "\x7b\x22code\x22:7\x7d")
          (some (ToolReturnMeta.mk "w6" "d" (some "t") "tool_return_message"
            none none none none none none (.obj [("code", .num 7)]) "error" (some "c")
            none none))]] ∧
    jsonStringify (.obj [("code", .num 7)]) = some "\x7b\x22code\x22:7\x7d" :=
  error_state_tool_part "w6" "d" (some "t") (some "c") (.obj [("code", .num 7)])
    none none none none none none none none rfl

